import Mathlib

/-!
Shallow embedding of the `@medieval/sword` ECS runtime (`src/lib/ecs.ts`,
`src/lib/Runner.ts`, and the middleware variant of `World`), together with
theorems settling the frozen claims about it.

Modelling conventions
* JavaScript objects holding component values are modelled as association
  lists `List (String × Value)` with the JS semantics of property read,
  property write (replace in place, else append) and `delete`.
* Component values are modelled by the JSON-shaped inductive `Value`
  (numbers, strings, booleans, `null`, arrays, objects).  Function-valued
  fields (systems, hooks, listeners) are modelled as opaque numeric tokens
  where only their count/registration matters.
* JS object identity (`===`, `indexOf`, `includes`) is modelled by tagging
  every entity stored in the world with a reference number `Nat`, allocated
  by a counter at creation time.
* Calls to registered listener callbacks are modelled observationally: each
  `emitEvent` appends the event to a trace field of the world.  The claims
  under verification are about *when* events fire and with which payloads,
  not about listener side effects.
-/

namespace Sword

/-- JSON-shaped dynamic values: the component values that snapshots can carry
(numbers, booleans, strings, `null`, arrays, nested objects). -/
inductive Value : Type where
  | num (n : Int)
  | str (s : String)
  | bool (b : Bool)
  | null
  | arr (items : List Value)
  | obj (fields : List (String × Value))

/-- A JS object / entity: an open-ended bag of components keyed by strings.
JS objects never hold two properties with the same key. -/
abbrev Entity := List (String × Value)

/-- JS truthiness (`!!v`).  `0`, `""`, `false`, `null`/`undefined` are falsy;
objects and arrays are always truthy. -/
def truthy : Value → Bool
  | .num n => n != 0
  | .str s => s != ""
  | .bool b => b
  | .null => false
  | .arr _ => true
  | .obj _ => true

/-- Association-list read: `m.get(k)` / property access, first binding wins
(JS keys are unique). -/
def mapGet {κ β : Type} [BEq κ] (m : List (κ × β)) (k : κ) : Option β :=
  (m.find? (fun kv => kv.1 == k)).map (fun kv => kv.2)

/-- Association-list write with JS `Map.set` / property-assignment semantics:
replace the binding in place when the key is present, append otherwise. -/
def mapSet {κ β : Type} [BEq κ] : List (κ × β) → κ → β → List (κ × β)
  | [], k, v => [(k, v)]
  | kv :: rest, k, v => if kv.1 == k then (k, v) :: rest else kv :: mapSet rest k v

/-- `delete obj[k]` / `Map.delete(k)`: drop the binding for `k`. -/
def mapDelete {κ β : Type} [BEq κ] (m : List (κ × β)) (k : κ) : List (κ × β) :=
  m.filter (fun kv => kv.1 != k)

/-- The JS `k in obj` operator: property presence (truthiness irrelevant). -/
def hasKey (e : Entity) (k : String) : Bool :=
  e.any (fun kv => kv.1 == k)

/-- `entity[k]` read. -/
def getVal (e : Entity) (k : String) : Option Value :=
  mapGet e k

/-- `entity[k] = v` write. -/
def setVal (e : Entity) (k : String) (v : Value) : Entity :=
  mapSet e k v

/-- The JS spread merge `{ ...a, ...b }`: start from `a`, then assign every
binding of `b` in order, so `b` wins on key collision while colliding keys
keep the position they had in `a`. -/
def spreadMerge (a b : Entity) : Entity :=
  b.foldl (fun acc kv => setVal acc kv.1 kv.2) a

/-- Events emitted by the `World` (`emitEvent` channel name plus payload),
with entities referred to by their reference tag. -/
inductive Event : Type where
  | entityAdded (entity : Nat)
  | entityRemoved (entity : Nat)
  | stateChanged (entity : Nat)
  | queryChanged (entities addedEntities removedEntities : List Nat)
  deriving DecidableEq

/--
Embedding of the `World` class of `src/lib/ecs.ts` (the data fields).

* `entities` is the storage array, each live entity tagged with its
  reference number; `nextRef` is the allocation counter for references.
* `systems`, the three hook arrays and the per-channel listener arrays hold
  functions in the source; they are modelled as opaque tokens.
* `entityById` is the numeric-id side table (id ↦ entity reference),
  `nextId` the id counter starting at 1.
* `trace` is the observational log of every `emitEvent` call.
-/
structure World : Type where
  nextRef : Nat := 0
  entities : List (Nat × Entity) := []
  archetypes : List (String × Entity) := []
  systems : List Nat := []
  onEntityAddedHooks : List Nat := []
  onEntityRemovedHooks : List Nat := []
  onUpdateHooks : List Nat := []
  eventListeners : List (String × List Nat) := []
  entityById : List (Nat × Nat) := []
  nextId : Nat := 1
  entityCreationQueue : List Entity := []
  trace : List Event := []

/-- `emitEvent(name, data)`: the source looks up the channel's listeners and
invokes them; the embedding records the emission in the trace. -/
def emitEvent (w : World) (ev : Event) : World :=
  { w with trace := w.trace ++ [ev] }

/-- `World.createEntity(components)`: append a fresh entity holding a shallow
copy of `components` (fresh JS object = fresh reference), fire `entityAdded`,
return the entity.  The optional `onAdd` callback and the
`onEntityAddedHooks` calls are listener invocations, outside the data model. -/
def createEntity (w : World) (components : Entity) : World × Nat :=
  let r := w.nextRef
  let w := { w with nextRef := r + 1, entities := w.entities ++ [(r, components)] }
  (emitEvent w (.entityAdded r), r)

/-- A query filter: `has` / `where` / `none` / `tags` clauses, each optional.
The `where` predicate is an arbitrary JS function; `none` is the
forbidden-keys clause of the source (named `noneKeys` here because `none` is
taken by `Option`). -/
structure Filter : Type where
  has : Option (List String) := none
  whereC : Option (Entity → Bool) := none
  noneKeys : Option (List String) := none
  tags : Option (List String) := none

/-- `!!entity[tag]`: the tag read is truthy (an absent key reads as
`undefined`, which is falsy). -/
def tagTruthy (e : Entity) (tag : String) : Bool :=
  match getVal e tag with
  | some v => truthy v
  | none => false

/-- The per-entity match test of `World.query` (`src/lib/ecs.ts:223-234`):
`has` keys all present, `where` predicate passes, `none` keys all absent,
`tags` keys all truthy; an omitted clause is `true`. -/
def matchesFilter (f : Filter) (e : Entity) : Bool :=
  let hasComponents := match f.has with
    | some ks => ks.all (fun component => hasKey e component)
    | none => true
  let passesCondition := match f.whereC with
    | some p => p e
    | none => true
  let lacksComponents := match f.noneKeys with
    | some ks => ks.all (fun component => !(hasKey e component))
    | none => true
  let hasTags := match f.tags with
    | some ts => ts.all (fun tag => tagTruthy e tag)
    | none => true
  hasComponents && passesCondition && lacksComponents && hasTags

/-- `World.emitQueryEvents(matchedEntities)` (`src/lib/ecs.ts:383-394`):
`addedEntities` is `matchedEntities` minus the store, `removedEntities` is
the store minus `matchedEntities` (all by identity), and `queryChanged`
fires when either is non-empty. -/
def emitQueryEvents (w : World) (matchedEntities : List Nat) : World :=
  let refs := w.entities.map (fun p => p.1)
  let addedEntities := matchedEntities.filter (fun e => !(refs.contains e))
  let removedEntities := refs.filter (fun e => !(matchedEntities.contains e))
  if addedEntities.length > 0 ∨ removedEntities.length > 0 then
    emitEvent w (.queryChanged matchedEntities addedEntities removedEntities)
  else
    w

/-- The record returned by `World.query` (the `addHook`/`removeHook`
closures are omitted: they only register listeners). -/
structure QueryHandle : Type where
  entities : List (Nat × Entity)
  singleton : Option (Nat × Entity)

/-- `World.query(filter)` (`src/lib/ecs.ts:212-275`): filter the storage
array with `matchesFilter`, call `emitQueryEvents` on the matches, expose
the matches and the singleton (`null` unless exactly one match). -/
def query (w : World) (f : Filter) : World × QueryHandle :=
  let matchedEntities := w.entities.filter (fun p => matchesFilter f p.2)
  let w := emitQueryEvents w (matchedEntities.map (fun p => p.1))
  (w, { entities := matchedEntities,
        singleton := if matchedEntities.length == 1 then matchedEntities.head? else none })

/-- `World.genID(entity)`: assign the next numeric id to the entity in the
side table and return it. -/
def genID (w : World) (entity : Nat) : World × Nat :=
  let id := w.nextId
  ({ w with nextId := id + 1, entityById := mapSet w.entityById id entity }, id)

/-- `World.byID(id)`: numeric-id lookup in the side table. -/
def byID (w : World) (id : Nat) : Option Nat :=
  mapGet w.entityById id

/-- `World.getKeyByValue(map, searchKey)` (`src/lib/ecs.ts:424-429`): scan
the map in insertion order and return the first key whose value is
(reference-)equal to the argument. -/
def getKeyByValue (m : List (Nat × Nat)) (searchKey : Nat) : Option Nat :=
  (m.find? (fun kv => kv.2 == searchKey)).map (fun kv => kv.1)

/-- `World.removeEntity(entity)` (`src/lib/ecs.ts:165-177`): if the entity is
present (by identity), splice it out of storage, delete the id binding found
by `getKeyByValue` (if any), and fire `entityRemoved`; otherwise no-op. -/
def removeEntity (w : World) (entity : Nat) : World :=
  if w.entities.any (fun p => p.1 == entity) then
    let w := { w with entities := w.entities.eraseP (fun p => p.1 == entity) }
    let w := match getKeyByValue w.entityById entity with
      | some id => { w with entityById := mapDelete w.entityById id }
      | none => w
    emitEvent w (.entityRemoved entity)
  else
    w

/-- `World.addComponent(entity, key, value)` (`src/lib/ecs.ts:143-147`):
assign the component on the entity in place, fire `state-changed`, then call
`emitQueryEvents([entity])`. -/
def addComponent (w : World) (entity : Nat) (componentKey : String) (componentValue : Value) : World :=
  let updated := w.entities.map
    (fun p => if p.1 == entity then (p.1, setVal p.2 componentKey componentValue) else p)
  let w := { w with entities := updated }
  let w := emitEvent w (.stateChanged entity)
  emitQueryEvents w [entity]

/-- `World.removeComponent(entity, key)` (`src/lib/ecs.ts:154-158`): delete
the component, fire `state-changed`, then call `emitQueryEvents([entity])`. -/
def removeComponent (w : World) (entity : Nat) (componentKey : String) : World :=
  let updated := w.entities.map
    (fun p => if p.1 == entity then (p.1, mapDelete p.2 componentKey) else p)
  let w := { w with entities := updated }
  let w := emitEvent w (.stateChanged entity)
  emitQueryEvents w [entity]

/-- `World.registerArchetype(name, archetype)`: store/overwrite the template. -/
def registerArchetype (w : World) (name : String) (archetype : Entity) : World :=
  { w with archetypes := mapSet w.archetypes name archetype }

/-- `World.createEntityFromArchetype(name, newState)` (`src/lib/ecs.ts:112-122`):
throw `Error("Archetype \x7bname\x7d not found.")` when the name is
unregistered (modelled as `Except.error` carrying the message and the world,
which the throw leaves untouched); otherwise push `{ ...archetype,
...newState }` as a fresh entity and fire `entityAdded`. -/
def createEntityFromArchetype (w : World) (archetypeName : String) (newState : Entity) :
    Except (String × World) (World × Nat) :=
  match mapGet w.archetypes archetypeName with
  | none => .error ("Archetype \"" ++ archetypeName ++ "\" not found.", w)
  | some archetype =>
    let entity := spreadMerge archetype newState
    let r := w.nextRef
    let w := { w with nextRef := r + 1, entities := w.entities ++ [(r, entity)] }
    .ok (emitEvent w (.entityAdded r), r)

/-- `World.addEntityToQueue(entityData)` (`src/lib/ecs.ts:413-416`): push the
spec onto the deferred-creation queue and return `{ ...entityData }`, a
detached shallow copy (a fresh object that is never stored, hence carries no
reference tag in this model). -/
def addEntityToQueue (w : World) (entityData : Entity) : World × Entity :=
  ({ w with entityCreationQueue := w.entityCreationQueue ++ [entityData] }, entityData)

/-- The deferred-creation drain loop at the end of `World.runSystems`
(`src/lib/ecs.ts:198-205`): `shift` specs off the queue while it is
non-empty and run each through `createEntity`. -/
def drainQueue (w : World) : World :=
  match h : w.entityCreationQueue with
  | [] => w
  | entityData :: rest =>
    drainQueue (createEntity { w with entityCreationQueue := rest } entityData).1
termination_by w.entityCreationQueue.length
decreasing_by simp [createEntity, emitEvent, h]

/-- `World.runSystems(deltaTime)` (`src/lib/ecs.ts:191-205`): run every
`onUpdateHooks` entry with `deltaTime`, then `await` each system in list
order (sequential composition — the runner never overlaps two systems), then
drain the deferred-creation queue.  Hook and system bodies are arbitrary
code; the embedding takes their behaviours as explicit world-transformer
lists (the token fields of `World` only track registration). -/
def runSystems (hooks systems : List (Int → World → World)) (deltaTime : Int) (w : World) : World :=
  let w := hooks.foldl (fun w hook => hook deltaTime w) w
  let w := systems.foldl (fun w system => system deltaTime w) w
  drainQueue w

/-! ### Snapshot codec (`World.toJSON` / `World.fromJSON`)

`JSON.stringify`/`JSON.parse` are host built-ins; the embedding works on the
parsed JSON trees (`Value`) directly, with the text layer being the identity
on them.  `JSON.stringify` turns function values inside arrays into `null`,
which is how the token-modelled systems/hooks/listeners serialize. -/

/-- An entity serializes to the JSON object holding its components. -/
def encodeEntity (e : Entity) : Value := .obj e

/-- `JSON.stringify(this.entities)`: the array of entity objects
(reference tags are a modelling device and do not serialize). -/
def encodeEntities (es : List Entity) : Value := .arr (es.map encodeEntity)

/-- `World.toJSON()` (`src/lib/ecs.ts:347-357`): the stringified composite
object.  Function arrays serialize element-wise to `null`. -/
def toJSON (w : World) : Value :=
  .obj [
    ("entities", encodeEntities (w.entities.map (fun p => p.2))),
    ("systems", .arr (w.systems.map (fun _ => Value.null))),
    ("archetypes", .arr (w.archetypes.map (fun p => Value.arr [.str p.1, .obj p.2]))),
    ("eventListeners", .arr (w.eventListeners.map
      (fun p => Value.arr [.str p.1, .arr (p.2.map (fun _ => Value.null))]))),
    ("onUpdateHooks", .arr (w.onUpdateHooks.map (fun _ => Value.null))),
    ("onEntityAddedHooks", .arr (w.onEntityAddedHooks.map (fun _ => Value.null))),
    ("onEntityRemovedHooks", .arr (w.onEntityRemovedHooks.map (fun _ => Value.null)))
  ]

/-- JS property access `j.k` on a parsed JSON value: `undefined` (`none`)
when the key is missing or the value is not an object. -/
def jGet (j : Value) (k : String) : Option Value :=
  match j with
  | .obj fields => mapGet fields k
  | _ => none

/-- Destructuring `const [name, v] of ...` over one entry: the element must
be a two-element array with a string head (anything else throws in JS,
modelled as `none`). -/
def asEntry : Value → Option (String × Value)
  | .arr [.str name, v] => some (name, v)
  | _ => none

/-- Iterating `for (const [name, v] of x)`: `x` must be an array of entries
(a non-iterable throws, modelled as `none`). -/
def asEntryList : Value → Option (List (String × Value))
  | .arr items => items.mapM asEntry
  | _ => none

/--
The `World` fields as `fromJSON` sees and assigns them: raw parsed JSON
values (JS is untyped here, so `this.entities = Njson.entities` stores
whatever was parsed; `none` models JS `undefined`).  On the live store the
`entities` slot holds `encodeEntities` of the component bags.
-/
structure CodecState : Type where
  entities : Option Value := none
  systems : Option Value := none
  archetypes : List (String × Value) := []
  eventListeners : List (String × Value) := []
  onUpdateHooks : Option Value := none
  onEntityAddedHooks : Option Value := none
  onEntityRemovedHooks : Option Value := none

/--
`World.fromJSON(json)` (`src/lib/ecs.ts:363-377`), step for step:
`JSON.parse` (a parse failure throws before any assignment — the `none`
input), then field assignments in source order: `entities`, `systems`, a
fresh `archetypes` map filled from the parsed entry list, entries merged
*into* the existing `eventListeners` map, then the three hook arrays.
A throw part-way (`for..of` over `undefined`/a non-iterable) is modelled as
`Except.error` carrying the state mutated so far.
-/
def fromJSON (s : CodecState) (parsed : Option Value) : Except CodecState CodecState :=
  match parsed with
  | none => .error s
  | some Njson =>
    let s := { s with entities := jGet Njson "entities" }
    let s := { s with systems := jGet Njson "systems" }
    let s := { s with archetypes := [] }
    match jGet Njson "archetypes" with
    | none => .error s
    | some a =>
      match asEntryList a with
      | none => .error s
      | some pairs =>
        let s := { s with archetypes := pairs.foldl (fun m p => mapSet m p.1 p.2) [] }
        match jGet Njson "eventListeners" with
        | none => .error s
        | some el =>
          match asEntryList el with
          | none => .error s
          | some lpairs =>
            let mergedListeners := lpairs.foldl (fun m p => mapSet m p.1 p.2) s.eventListeners
            let s := { s with eventListeners := mergedListeners }
            .ok { s with onUpdateHooks := jGet Njson "onUpdateHooks",
                         onEntityAddedHooks := jGet Njson "onEntityAddedHooks",
                         onEntityRemovedHooks := jGet Njson "onEntityRemovedHooks" }

/-- Reading one restored entity back: it must be a JSON object. -/
def decodeEntity : Value → Option Entity
  | .obj fields => some fields
  | _ => none

/-- Reading the restored entity list back from the `entities` slot. -/
def decodeEntities : Value → Option (List Entity)
  | .arr items => items.mapM decodeEntity
  | _ => none

end Sword

namespace Runner

/-- `ISystem.order` of `src/lib/System.ts`: `{ auto: boolean, number: number }`. -/
structure SysOrder : Type where
  auto : Bool
  number : Int
  deriving DecidableEq

/-- A system as the `Runner` sees it (`update` bodies are irrelevant to
ordering; `name` identifies a system in examples). -/
structure RSystem : Type where
  name : String := ""
  order : Option SysOrder := none
  deriving DecidableEq

/-- `a.order?.number ?? 0`: the sort key, 0 when no order was given. -/
def orderNumber (s : RSystem) : Int :=
  (s.order.map (fun o => o.number)).getD 0

/-- The ordering the JS comparator `(a, b) => orderA - orderB` sorts by. -/
def sysLe (a b : RSystem) : Prop := orderNumber a ≤ orderNumber b

instance : DecidableRel sysLe := fun a b => Int.decLe (orderNumber a) (orderNumber b)

instance : IsTotal RSystem sysLe := ⟨fun a b => Int.le_total (orderNumber a) (orderNumber b)⟩

instance : IsTrans RSystem sysLe := ⟨fun _ _ _ => Int.le_trans⟩

/-- `Runner.addSystem` (`src/lib/Runner.ts:10-19`): push, then — when the
new system has `order.auto` — sort the whole list ascending by
`order.number`.  `Array.prototype.sort` is a stable sort; it is modelled by
the canonical stable sort (`List.insertionSort`) for the same key. -/
def addSystem (l : List RSystem) (system : RSystem) : List RSystem :=
  let l := l ++ [system]
  if (system.order.map (fun o => o.auto)).getD false then
    List.insertionSort sysLe l
  else
    l

end Runner

namespace Midware

/-!
Embedding of the middleware-variant `World` (second module of
`src/unnamed/part_001`, lines 88-213): the one with `emitEvent` running an
ordered middleware chain before `processEvent` reaches the listeners.

Listener `conditions` receive a context `{ world, entity, payload }`; the
model passes them the entity and the payload (their verdict on the world
cannot be represented inside the state without a circular type, and the
claims do not turn on it).  Listener `actions` are opaque tokens; running
one appends an invocation record `(action, entity, payload)` to the trace.
-/

/-- An `IEvent` listener: optional priority, conditions, actions. -/
structure MIEvent : Type where
  priority : Option Int := none
  conditions : List (Sword.Entity → Sword.Value → Bool) := []
  actions : List Nat := []

/-- An `IGameEvent`: channel name plus payload. -/
structure GameEvent : Type where
  name : String
  payload : Sword.Value

/-- The data fields of the middleware-variant `World`, plus the
observational invocation trace. -/
structure MState : Type where
  entities : List Sword.Entity := []
  eventListeners : List (String × List MIEvent) := []
  invocations : List (Nat × Sword.Entity × Sword.Value) := []

/-- A middleware receives the event, the world and the continuation
(`next`); it returns the resulting world.  (Middlewares cannot live inside
`MState` — that would be a circular type — so `emitEvent` takes the chain
as an argument.) -/
def Middleware : Type := GameEvent → MState → (MState → MState) → MState

/-- `(b.priority || 0) - (a.priority || 0)`: descending priority, the order
`on` keeps the listener list in. -/
def prio (e : MIEvent) : Int := e.priority.getD 0

/-- The ordering of the priority comparator: higher priority first. -/
def prioGe (a b : MIEvent) : Prop := prio b ≤ prio a

instance : DecidableRel prioGe := fun a b => Int.decLe (prio b) (prio a)

instance : IsTotal MIEvent prioGe := ⟨fun a b => Int.le_total (prio b) (prio a)⟩

instance : IsTrans MIEvent prioGe := ⟨fun _ _ _ h h' => Int.le_trans h' h⟩

/-- `World.on(eventName, event)` (`part_001` lines 134-140): append the
listener, then stably sort the channel's list by descending priority.
(The source method is named `on`, a reserved token in Lean.) -/
def onListener (s : MState) (eventName : String) (event : MIEvent) : MState :=
  let existing := (Sword.mapGet s.eventListeners eventName).getD []
  let updated := List.insertionSort prioGe (existing ++ [event])
  { s with eventListeners := Sword.mapSet s.eventListeners eventName updated }

/-- `World.use(middleware)` (`part_001` lines 179-181): append to the chain. -/
def use (middlewares : List Middleware) (middleware : Middleware) : List Middleware :=
  middlewares ++ [middleware]

/-- Running one listener's actions against one entity: each action is
invoked with the shared context, recorded as an invocation. -/
def runActions (s : MState) (entity : Sword.Entity) (payload : Sword.Value)
    (actions : List Nat) : MState :=
  { s with invocations := s.invocations ++ actions.map (fun a => (a, entity, payload)) }

/-- `World.processEvent(event)` (`part_001` lines 159-174): for each
listener of the channel (in the stored, priority-sorted order), for each
entity, run the actions when every condition passes. -/
def processEvent (s : MState) (event : GameEvent) : MState :=
  let listeners := (Sword.mapGet s.eventListeners event.name).getD []
  listeners.foldl (fun s evt =>
    s.entities.foldl (fun s entity =>
      if evt.conditions.all (fun cond => cond entity event.payload) then
        runActions s entity event.payload evt.actions
      else s) s) s

/-- The recursive `processMiddlewares(index)` of `World.emitEvent`
(`part_001` lines 145-154): past the end of the chain, dispatch to
`processEvent`; otherwise hand the event to the next middleware together
with the continuation for the rest of the chain. -/
def processMiddlewares (middlewares : List Middleware) (event : GameEvent) (s : MState) : MState :=
  match middlewares with
  | [] => processEvent s event
  | m :: rest => m event s (fun s => processMiddlewares rest event s)

/-- `World.emitEvent(event)`: start the middleware chain at index 0. -/
def emitEvent (middlewares : List Middleware) (s : MState) (event : GameEvent) : MState :=
  processMiddlewares middlewares event s

end Midware

/-! ## Theorems settling the claims -/

namespace Sword

theorem tagTruthy_iff (e : Entity) (t : String) :
    tagTruthy e t = true ↔ ∃ v, getVal e t = some v ∧ truthy v = true := by
  unfold tagTruthy
  cases h : getVal e t <;> simp

theorem matchesFilter_iff (f : Filter) (e : Entity) :
    matchesFilter f e = true ↔
      (∀ ks, f.has = some ks → ∀ k ∈ ks, hasKey e k = true) ∧
      (∀ p, f.whereC = some p → p e = true) ∧
      (∀ ks, f.noneKeys = some ks → ∀ k ∈ ks, hasKey e k = false) ∧
      (∀ ts, f.tags = some ts → ∀ t ∈ ts, ∃ v, getVal e t = some v ∧ truthy v = true) := by
  obtain ⟨hs, wh, nk, tg⟩ := f
  simp only [matchesFilter]
  cases hs <;> cases wh <;> cases nk <;> cases tg <;>
    simp [List.all_eq_true, tagTruthy_iff, and_assoc]

theorem query_entities_eq_filter (w : World) (f : Filter) :
    (query w f).2.entities = w.entities.filter (fun p => matchesFilter f p.2) := rfl

/-- **C1.**  For every store state and every filter, `query(filter).entities`
contains exactly the entities of the store that satisfy every specified
clause of the filter — `has`: every listed key present; `none`: every listed
key absent; `tags`: every listed key truthy; `where`: predicate true — and
no entity failing a specified clause; omitted clauses are vacuously true
(the `∀ …, clause = some … → …` guards hold trivially for omitted clauses);
and the matches come in Entity Store storage order (the result is a sublist
of the storage array). -/
theorem query_matches_exactly (w : World) (f : Filter) (r : Nat) (b : Entity) :
    ((r, b) ∈ (query w f).2.entities ↔
      (r, b) ∈ w.entities ∧
      (∀ ks, f.has = some ks → ∀ k ∈ ks, hasKey b k = true) ∧
      (∀ p, f.whereC = some p → p b = true) ∧
      (∀ ks, f.noneKeys = some ks → ∀ k ∈ ks, hasKey b k = false) ∧
      (∀ ts, f.tags = some ts → ∀ t ∈ ts, ∃ v, getVal b t = some v ∧ truthy v = true)) ∧
    (query w f).2.entities.Sublist w.entities := by
  rw [query_entities_eq_filter]
  refine ⟨?_, List.filter_sublist _⟩
  rw [List.mem_filter]
  exact and_congr_right (fun _ => matchesFilter_iff f b)

/-- A two-entity store: entity `0` holds `x: 1`, entity `1` is empty. -/
def c2world : World :=
  { nextRef := 2, entities := [(0, [("x", Value.num 1)]), (1, [])] }

/-- **C2** (evaluation at the failing input).  Re-assigning `x: 1` on entity
`0` of `c2world` leaves every entity bag unchanged — so *no* filter's match
set changes (third conjunct) — yet `addComponent` fires a `queryChanged`
event whose `removedEntities` is `[1]`, the store entities missing from the
`[entity]` list the code passes to `emitQueryEvents`; `addedEntities`, being
`matchedEntities` minus the whole store, is empty.  This contradicts the
claim that the deltas are `newMatches − oldMatches` / `oldMatches −
newMatches` and that no event fires when the match set is unchanged. -/
theorem addComponent_fires_queryChanged_without_change :
    (addComponent c2world 0 "x" (Value.num 1)).entities = c2world.entities ∧
    (addComponent c2world 0 "x" (Value.num 1)).trace =
      [Event.stateChanged 0, Event.queryChanged [0] [] [1]] ∧
    ∀ f, (query (addComponent c2world 0 "x" (Value.num 1)) f).2.entities =
      (query c2world f).2.entities := by
  have h : (addComponent c2world 0 "x" (Value.num 1)).entities = c2world.entities := rfl
  refine ⟨h, rfl, fun f => ?_⟩
  rw [query_entities_eq_filter, query_entities_eq_filter, h]

theorem getVal_cons (kv : String × Value) (rest : Entity) (k : String) :
    getVal (kv :: rest) k = if kv.1 = k then some kv.2 else getVal rest k := by
  by_cases h : kv.1 = k
  · rw [getVal, mapGet, List.find?_cons_of_pos _ (by simp [h]), if_pos h]
    rfl
  · rw [getVal, mapGet, List.find?_cons_of_neg _ (by simp [h]), if_neg h]
    rfl

theorem setVal_cons (kv : String × Value) (rest : Entity) (k : String) (v : Value) :
    setVal (kv :: rest) k v =
      if kv.1 = k then (k, v) :: rest else kv :: setVal rest k v := by
  by_cases h : kv.1 = k <;> simp [setVal, mapSet, h]

theorem getVal_setVal (e : Entity) (k k' : String) (v : Value) :
    getVal (setVal e k v) k' = if k' = k then some v else getVal e k' := by
  induction e with
  | nil =>
    have h0 : setVal [] k v = [(k, v)] := rfl
    rw [h0, getVal_cons]
    by_cases h : k' = k
    · simp [h]
    · simp [h, Ne.symm h, getVal, mapGet]
  | cons kv rest ih =>
    rw [setVal_cons]
    by_cases h : kv.1 = k
    · rw [if_pos h, getVal_cons]
      by_cases h' : k' = k
      · simp [h', getVal_cons]
      · rw [if_neg (fun hk => h' hk.symm), if_neg h', getVal_cons,
          if_neg (fun hk => h' (h ▸ hk).symm)]
    · rw [if_neg h, getVal_cons, getVal_cons]
      by_cases h'' : kv.1 = k'
      · rw [if_pos h'', if_pos h'', if_neg (fun hk => h (h''.trans hk))]
      · rw [if_neg h'', if_neg h'', ih]

theorem getVal_eq_none_of_not_mem (e : Entity) (k : String) (h : k ∉ e.map Prod.fst) :
    getVal e k = none := by
  induction e with
  | nil => rfl
  | cons kv rest ih =>
    simp only [List.map_cons, List.mem_cons] at h
    push_neg at h
    rw [getVal_cons, if_neg (fun hk => h.1 hk.symm), ih h.2]

theorem getVal_spreadMerge (a b : Entity) (hb : (b.map Prod.fst).Nodup) (k : String) :
    getVal (spreadMerge a b) k = (getVal b k).orElse (fun _ => getVal a k) := by
  induction b generalizing a with
  | nil => simp [spreadMerge, getVal, mapGet]
  | cons kv rest ih =>
    rw [List.map_cons, List.nodup_cons] at hb
    obtain ⟨hk0, hrest⟩ := hb
    have hstep : spreadMerge a (kv :: rest) = spreadMerge (setVal a kv.1 kv.2) rest := rfl
    rw [hstep, ih _ hrest, getVal_cons]
    by_cases h : kv.1 = k
    · rw [if_pos h, getVal_eq_none_of_not_mem rest k (h ▸ hk0), getVal_setVal,
        if_pos h.symm]
      rfl
    · rw [if_neg h, getVal_setVal, if_neg (fun hk => h hk.symm)]

/-- **C3.**  For every archetype name registered with some template and any
overrides object (a JS object: duplicate-free keys),
`createEntityFromArchetype` appends exactly one new entity whose bag is the
template shallow-merged with the overrides, overrides winning on every key
collision, and fires `entityAdded`; for an unregistered name it fails with
the `Archetype "…" not found.` error (the spec's `UnknownArchetype`) and the
world — in particular the entity list — is unchanged. -/
theorem createEntityFromArchetype_spec (w : World) (archetypeName : String)
    (newState : Entity) (hnodup : (newState.map Prod.fst).Nodup) :
    (∀ t, mapGet w.archetypes archetypeName = some t →
      ∃ w', createEntityFromArchetype w archetypeName newState = .ok (w', w.nextRef) ∧
        w'.entities = w.entities ++ [(w.nextRef, spreadMerge t newState)] ∧
        w'.trace = w.trace ++ [Event.entityAdded w.nextRef] ∧
        ∀ k, getVal (spreadMerge t newState) k =
          (getVal newState k).orElse (fun _ => getVal t k)) ∧
    (mapGet w.archetypes archetypeName = none →
      createEntityFromArchetype w archetypeName newState =
        .error ("Archetype \"" ++ archetypeName ++ "\" not found.", w)) := by
  constructor
  · intro t ht
    have hrun : createEntityFromArchetype w archetypeName newState =
        .ok (emitEvent
          { w with
            nextRef := w.nextRef + 1
            entities := w.entities ++ [(w.nextRef, spreadMerge t newState)] }
          (.entityAdded w.nextRef), w.nextRef) := by
      simp [createEntityFromArchetype, ht]
    exact ⟨_, hrun, rfl, rfl, fun k => getVal_spreadMerge t newState hnodup k⟩
  · intro ht
    simp [createEntityFromArchetype, ht]

/-- Witness for C3 at a concrete input: archetype `basic = {health: 50}`,
overrides `{health: 80, speed: 2}`. -/
theorem createEntityFromArchetype_spec_witness :
    ((([("health", Value.num 80), ("speed", Value.num 2)] : Entity).map Prod.fst).Nodup) ∧
    ((∀ t, mapGet (registerArchetype {} "basic" [("health", Value.num 50)]).archetypes
        "basic" = some t →
      ∃ w', createEntityFromArchetype (registerArchetype {} "basic"
            [("health", Value.num 50)]) "basic"
            [("health", Value.num 80), ("speed", Value.num 2)] = .ok (w', 0) ∧
        w'.entities = [] ++ [(0, spreadMerge t [("health", Value.num 80), ("speed", Value.num 2)])] ∧
        w'.trace = [] ++ [Event.entityAdded 0] ∧
        ∀ k, getVal (spreadMerge t [("health", Value.num 80), ("speed", Value.num 2)]) k =
          (getVal [("health", Value.num 80), ("speed", Value.num 2)] k).orElse
            (fun _ => getVal t k)) ∧
    (mapGet (registerArchetype {} "basic" [("health", Value.num 50)]).archetypes
        "basic" = none →
      createEntityFromArchetype (registerArchetype {} "basic" [("health", Value.num 50)])
          "basic" [("health", Value.num 80), ("speed", Value.num 2)] =
        .error ("Archetype \"" ++ "basic" ++ "\" not found.",
          registerArchetype {} "basic" [("health", Value.num 50)]))) :=
  ⟨by decide, createEntityFromArchetype_spec _ "basic" _ (by decide)⟩

/-- Fresh references paired with the queued bags, in queue order: what the
drain loop appends to storage. -/
def allocFrom (r : Nat) : List Entity → List (Nat × Entity)
  | [] => []
  | e :: rest => (r, e) :: allocFrom (r + 1) rest

theorem drainQueue_nil (w : World) (h : w.entityCreationQueue = []) :
    drainQueue w = w := by
  rw [drainQueue.eq_def]
  split <;> simp_all

theorem drainQueue_cons (w : World) (d : Entity) (rest : List Entity)
    (h : w.entityCreationQueue = d :: rest) :
    drainQueue w = drainQueue (createEntity { w with entityCreationQueue := rest } d).1 := by
  rw [drainQueue.eq_def]
  split <;> simp_all

theorem drainQueue_spec (w : World) :
    (drainQueue w).entityCreationQueue = [] ∧
    (drainQueue w).entities = w.entities ++ allocFrom w.nextRef w.entityCreationQueue ∧
    (drainQueue w).trace = w.trace ++
      (allocFrom w.nextRef w.entityCreationQueue).map (fun p => Event.entityAdded p.1) ∧
    (drainQueue w).nextRef = w.nextRef + w.entityCreationQueue.length := by
  generalize hq : w.entityCreationQueue = q
  induction q generalizing w with
  | nil => rw [drainQueue_nil w hq]; simp [allocFrom, hq]
  | cons d rest ih =>
    rw [drainQueue_cons w d rest hq]
    have h2 := ih (createEntity { w with entityCreationQueue := rest } d).1 rfl
    refine ⟨h2.1, ?_, ?_, ?_⟩
    · rw [h2.2.1]
      simp [createEntity, emitEvent, allocFrom]
    · rw [h2.2.2.1]
      simp [createEntity, emitEvent, allocFrom]
    · rw [h2.2.2.2]
      simp [createEntity, emitEvent]
      omega

/-- **C5.**  A tick (`runSystems(deltaTime)`) first applies every on-update
hook with `deltaTime`, then applies each system in list order, each run to
completion before the next starts (sequential composition — `u` is the
state after hooks-then-systems), and then drains the deferred-creation
queue completely in strict FIFO order through the normal `createEntity`
path: afterwards the queue is empty, storage gains one fresh entity per
queued spec in queue order, the trace gains one `entityAdded` event per
drained item in the same order, and every filter's query results over the
post-tick world are the during-tick results (computed on `u`, which never
contains queued-but-undrained entities) followed by exactly the matching
drained entities — so entities queued during a tick are absent from that
tick's evaluations and present from the next tick's. -/
theorem runSystems_spec (hooks systems : List (Int → World → World))
    (deltaTime : Int) (w : World) :
    (let u := systems.foldl (fun a system => system deltaTime a)
        (hooks.foldl (fun a hook => hook deltaTime a) w)
     runSystems hooks systems deltaTime w = drainQueue u ∧
     (runSystems hooks systems deltaTime w).entityCreationQueue = [] ∧
     (runSystems hooks systems deltaTime w).entities =
       u.entities ++ allocFrom u.nextRef u.entityCreationQueue ∧
     (runSystems hooks systems deltaTime w).trace = u.trace ++
       (allocFrom u.nextRef u.entityCreationQueue).map (fun p => Event.entityAdded p.1) ∧
     ∀ f, (query (runSystems hooks systems deltaTime w) f).2.entities =
       (query u f).2.entities ++
         (allocFrom u.nextRef u.entityCreationQueue).filter (fun p => matchesFilter f p.2)) := by
  refine ⟨rfl, (drainQueue_spec _).1, (drainQueue_spec _).2.1, (drainQueue_spec _).2.2.1, ?_⟩
  intro f
  rw [query_entities_eq_filter, query_entities_eq_filter]
  show (drainQueue _).entities.filter _ = _
  rw [(drainQueue_spec _).2.1, List.filter_append]

/-- Well-formedness of the reference counter: every stored entity's
reference was allocated below `nextRef`.  `createEntity` allocates at
`nextRef`, so this holds for every world built through the API. -/
def WF (w : World) : Prop := ∀ p ∈ w.entities, p.1 < w.nextRef

theorem mem_allocFrom_le (r : Nat) (q : List Entity) (p : Nat × Entity)
    (h : p ∈ allocFrom r q) : r ≤ p.1 := by
  induction q generalizing r with
  | nil => cases h
  | cons d rest ih =>
    rcases List.mem_cons.mp h with h | h
    · rw [h]
    · exact Nat.le_of_succ_le (ih (r + 1) h)

/-- **C10.**  `addEntityToQueue(spec)` leaves the entity list, the id table,
the archetype table and every hook/listener list (and even the event trace)
unchanged — it only appends `spec` to the deferred-creation queue — and the
value it returns is the detached bag copy `{ ...spec }`, which carries no
storage reference; when the queue is later flushed, every materialized
entity receives a reference distinct from every entity currently in the
store (a fresh object). -/
theorem addEntityToQueue_spec (w : World) (entityData : Entity) :
    ((addEntityToQueue w entityData).1.entities = w.entities ∧
     (addEntityToQueue w entityData).1.entityById = w.entityById ∧
     (addEntityToQueue w entityData).1.archetypes = w.archetypes ∧
     (addEntityToQueue w entityData).1.systems = w.systems ∧
     (addEntityToQueue w entityData).1.onEntityAddedHooks = w.onEntityAddedHooks ∧
     (addEntityToQueue w entityData).1.onEntityRemovedHooks = w.onEntityRemovedHooks ∧
     (addEntityToQueue w entityData).1.onUpdateHooks = w.onUpdateHooks ∧
     (addEntityToQueue w entityData).1.eventListeners = w.eventListeners ∧
     (addEntityToQueue w entityData).1.trace = w.trace ∧
     (addEntityToQueue w entityData).1.entityCreationQueue =
       w.entityCreationQueue ++ [entityData] ∧
     (addEntityToQueue w entityData).2 = entityData) ∧
    (WF w → ∀ p ∈ allocFrom (addEntityToQueue w entityData).1.nextRef
        (addEntityToQueue w entityData).1.entityCreationQueue,
      ∀ q ∈ w.entities, p.1 ≠ q.1) := by
  refine ⟨⟨rfl, rfl, rfl, rfl, rfl, rfl, rfl, rfl, rfl, rfl, rfl⟩, ?_⟩
  intro hwf p hp q hq
  have h1 := mem_allocFrom_le _ _ p hp
  have h2 := hwf q hq
  have h3 : (addEntityToQueue w entityData).1.nextRef = w.nextRef := rfl
  rw [h3] at h1
  omega

/-- Witness for C10: the two-entity world, queueing the bag `{y: 3}`. -/
theorem addEntityToQueue_spec_witness :
    (WF c2world) ∧
    (((addEntityToQueue c2world [("y", Value.num 3)]).1.entities = c2world.entities ∧
      (addEntityToQueue c2world [("y", Value.num 3)]).1.entityById = c2world.entityById ∧
      (addEntityToQueue c2world [("y", Value.num 3)]).1.archetypes = c2world.archetypes ∧
      (addEntityToQueue c2world [("y", Value.num 3)]).1.systems = c2world.systems ∧
      (addEntityToQueue c2world [("y", Value.num 3)]).1.onEntityAddedHooks =
        c2world.onEntityAddedHooks ∧
      (addEntityToQueue c2world [("y", Value.num 3)]).1.onEntityRemovedHooks =
        c2world.onEntityRemovedHooks ∧
      (addEntityToQueue c2world [("y", Value.num 3)]).1.onUpdateHooks =
        c2world.onUpdateHooks ∧
      (addEntityToQueue c2world [("y", Value.num 3)]).1.eventListeners =
        c2world.eventListeners ∧
      (addEntityToQueue c2world [("y", Value.num 3)]).1.trace = c2world.trace ∧
      (addEntityToQueue c2world [("y", Value.num 3)]).1.entityCreationQueue =
        c2world.entityCreationQueue ++ [[("y", Value.num 3)]] ∧
      (addEntityToQueue c2world [("y", Value.num 3)]).2 = [("y", Value.num 3)]) ∧
     (WF c2world → ∀ p ∈ allocFrom (addEntityToQueue c2world [("y", Value.num 3)]).1.nextRef
         (addEntityToQueue c2world [("y", Value.num 3)]).1.entityCreationQueue,
       ∀ q ∈ c2world.entities, p.1 ≠ q.1)) :=
  ⟨by unfold WF; decide, addEntityToQueue_spec c2world [("y", Value.num 3)]⟩

/-- One entity `{hp: 1}` (reference 0). -/
def c7base : World := (createEntity {} [("hp", Value.num 1)]).1

/-- …after `genID` assigned it id 1. -/
def c7one : World := (genID c7base 0).1

/-- …after a second `genID` call also assigned it id 2. -/
def c7two : World := (genID c7one 0).1

/-- **C7 (counterexample).**  The claim quantifies over entities assigned
*one or more* ids.  Assign ids 1 and 2 to the same entity, then destroy it:
`removeEntity` deletes only the id found first by `getKeyByValue` (id 1), so
`byID(2)` still returns the destroyed entity — the claim that afterwards
`byID(id)` is absent *for each id that had been assigned* is false. -/
theorem removeEntity_leaves_second_id :
    (genID c7base 0).2 = 1 ∧ (genID c7one 0).2 = 2 ∧
    (removeEntity c7two 0).entities = [] ∧
    byID (removeEntity c7two 0) 2 = some 0 :=
  ⟨rfl, rfl, rfl, rfl⟩

theorem mapGet_ne_of_value_absent (m : List (Nat × Nat)) (r : Nat)
    (h : ∀ kv ∈ m, kv.2 ≠ r) (id : Nat) : mapGet m id ≠ some r := by
  intro hget
  rw [mapGet] at hget
  rcases hfind : m.find? (fun kv => kv.1 == id) with _ | kv
  · rw [hfind] at hget
    exact Option.noConfusion hget
  · rw [hfind] at hget
    have hmem := List.mem_of_find?_eq_some hfind
    exact h kv hmem (by simpa using hget)

theorem byID_after_none (m : List (Nat × Nat)) (r : Nat)
    (hk : getKeyByValue m r = none) (id : Nat) : mapGet m id ≠ some r := by
  apply mapGet_ne_of_value_absent
  intro kv hmem hval
  rw [getKeyByValue] at hk
  rcases hfind : m.find? (fun kv => kv.2 == r) with _ | kv0
  · have := List.find?_eq_none.mp hfind kv hmem
    simp [hval] at this
  · rw [hfind] at hk
    simp at hk

theorem byID_after_delete (m : List (Nat × Nat)) (r id0 : Nat)
    (hk : getKeyByValue m r = some id0)
    (hone : ∀ q ∈ m, ∀ q' ∈ m, q.2 = r → q'.2 = r → q.1 = q'.1)
    (id : Nat) : mapGet (mapDelete m id0) id ≠ some r := by
  apply mapGet_ne_of_value_absent
  intro kv hmem hval
  rw [getKeyByValue] at hk
  rcases hfind : m.find? (fun kv => kv.2 == r) with _ | kv0
  · rw [hfind] at hk
    exact Option.noConfusion hk
  · rw [hfind] at hk
    have hk0mem := List.mem_of_find?_eq_some hfind
    have hk0val : kv0.2 = r := by simpa using List.find?_some hfind
    have hk0key : kv0.1 = id0 := by simpa using hk
    have hkvm : kv ∈ m ∧ (kv.1 != id0) = true := by
      simpa [mapDelete] using List.mem_filter.mp hmem
    have : kv0.1 = kv.1 := hone kv0 hk0mem kv hkvm.1 hk0val hval
    have : kv.1 = id0 := by rw [← this, hk0key]
    simp [this] at hkvm

theorem not_mem_refs_eraseP (l : List (Nat × Entity)) (r : Nat)
    (h : (l.map Prod.fst).Nodup) :
    r ∉ (l.eraseP (fun p => p.1 == r)).map Prod.fst := by
  induction l with
  | nil => simp
  | cons p rest ih =>
    rw [List.map_cons, List.nodup_cons] at h
    by_cases hp : p.1 = r
    · simp only [List.eraseP_cons, show (p.1 == r) = true by simp [hp], cond_true]
      simpa [hp] using h.1
    · simp only [List.eraseP_cons, show (p.1 == r) = false by simp [hp], cond_false,
        List.map_cons, List.mem_cons]
      push_neg
      exact ⟨fun hr => hp hr.symm, ih h.2⟩

/-- **C7 (amended).**  For an entity present in storage that was assigned
*at most one* numeric id, `removeEntity` removes it from storage and
removes its id mapping, so that afterwards `byID` returns the destroyed
entity for no id at all.  (With several ids for one entity only the first
mapping found is deleted — see the counterexample.) -/
theorem removeEntity_clears_unique_id (w : World) (r : Nat)
    (hpresent : w.entities.any (fun p => p.1 == r) = true)
    (hrefs : (w.entities.map Prod.fst).Nodup)
    (hone : ∀ q ∈ w.entityById, ∀ q' ∈ w.entityById, q.2 = r → q'.2 = r → q.1 = q'.1) :
    (∀ id, byID (removeEntity w r) id ≠ some r) ∧
    r ∉ (removeEntity w r).entities.map Prod.fst := by
  constructor
  · intro id
    rcases hk : getKeyByValue w.entityById r with _ | id0
    · have hById : (removeEntity w r).entityById = w.entityById := by
        simp [removeEntity, hpresent, hk, emitEvent]
      rw [byID, hById]
      exact byID_after_none w.entityById r hk id
    · have hById : (removeEntity w r).entityById = mapDelete w.entityById id0 := by
        simp [removeEntity, hpresent, hk, emitEvent]
      rw [byID, hById]
      exact byID_after_delete w.entityById r id0 hk hone id
  · have hEnt : (removeEntity w r).entities = w.entities.eraseP (fun p => p.1 == r) := by
      rcases hk : getKeyByValue w.entityById r with _ | id0 <;>
        simp [removeEntity, hpresent, hk, emitEvent]
    rw [hEnt]
    exact not_mem_refs_eraseP w.entities r hrefs

/-- Witness for the amended C7 at the single-id world `c7one`. -/
theorem removeEntity_clears_unique_id_witness :
    (c7one.entities.any (fun p => p.1 == 0) = true) ∧
    ((c7one.entities.map Prod.fst).Nodup) ∧
    (∀ q ∈ c7one.entityById, ∀ q' ∈ c7one.entityById, q.2 = 0 → q'.2 = 0 → q.1 = q'.1) ∧
    ((∀ id, byID (removeEntity c7one 0) id ≠ some 0) ∧
     0 ∉ (removeEntity c7one 0).entities.map Prod.fst) :=
  ⟨by decide, by decide, by decide,
   removeEntity_clears_unique_id c7one 0 (by decide) (by decide) (by decide)⟩

/-- A stable sort leaves every equal-key fiber of the list untouched: the
elements on which the sort key is constant keep exactly their original
relative order (and multiplicity). -/
theorem insertionSort_filter_fiber {α : Type} (r : α → α → Prop) [DecidableRel r]
    [IsTotal α r] [IsTrans α r] (l : List α) (p : α → Bool)
    (hp : ∀ a b, p a = true → p b = true → r a b) :
    (l.insertionSort r).filter p = l.filter p := by
  have hmemp : ∀ x ∈ l.filter p, p x = true := fun x hx => (List.mem_filter.mp hx).2
  have hpair : (l.filter p).Pairwise r :=
    List.pairwise_of_forall_mem_list (fun a ha b hb =>
      hp a b (List.mem_filter.mp ha).2 (List.mem_filter.mp hb).2)
  have hsub2 : List.Sublist (l.filter p) (l.insertionSort r) :=
    List.sublist_insertionSort hpair (List.filter_sublist l)
  have hsub3 : List.Sublist ((l.filter p).filter p) ((l.insertionSort r).filter p) :=
    hsub2.filter p
  rw [List.filter_eq_self.mpr hmemp] at hsub3
  have hperm : List.Perm ((l.insertionSort r).filter p) (l.filter p) :=
    (List.perm_insertionSort r l).filter p
  exact (hsub3.eq_of_length hperm.length_eq.symm).symm

end Sword

namespace Runner

/-- `order.auto` is set on the system (the sort trigger in `addSystem`). -/
def autoOn (s : RSystem) : Prop :=
  (s.order.map (fun o => o.auto)).getD false = true

instance (s : RSystem) : Decidable (autoOn s) := by
  unfold autoOn
  infer_instance

theorem foldl_addSystem_sorted (ss : List RSystem) (acc : List RSystem)
    (hacc : acc.Pairwise sysLe) (hauto : ∀ s ∈ ss, autoOn s) :
    (ss.foldl addSystem acc).Pairwise sysLe := by
  induction ss generalizing acc with
  | nil => simpa using hacc
  | cons s rest ih =>
    rw [List.foldl_cons]
    refine ih _ ?_ (fun s' h' => hauto s' (List.mem_cons_of_mem s h'))
    have hs : (s.order.map (fun o => o.auto)).getD false = true :=
      hauto s (List.mem_cons_self s rest)
    rw [addSystem]
    simp only [hs, if_true]
    exact List.sorted_insertionSort sysLe (acc ++ [s])

theorem foldl_addSystem_fiber (ss : List RSystem) (acc : List RSystem)
    (hauto : ∀ s ∈ ss, autoOn s) (v : Int) :
    (ss.foldl addSystem acc).filter (fun s => orderNumber s == v) =
      acc.filter (fun s => orderNumber s == v) ++
        ss.filter (fun s => orderNumber s == v) := by
  induction ss generalizing acc with
  | nil => simp
  | cons s rest ih =>
    rw [List.foldl_cons, ih _ (fun s' h' => hauto s' (List.mem_cons_of_mem s h'))]
    have hs : (s.order.map (fun o => o.auto)).getD false = true :=
      hauto s (List.mem_cons_self s rest)
    have hstep : (addSystem acc s).filter (fun q => orderNumber q == v) =
        (acc ++ [s]).filter (fun q => orderNumber q == v) := by
      rw [addSystem]
      simp only [hs, if_true]
      refine Sword.insertionSort_filter_fiber sysLe _ _ (fun a b ha hb => ?_)
      have ha' : orderNumber a = v := by simpa using ha
      have hb' : orderNumber b = v := by simpa using hb
      rw [sysLe, ha', hb']
    rw [hstep, List.filter_append]
    simp only [List.filter_cons, List.append_assoc]
    by_cases h : orderNumber s = v <;> simp [h]

/-- **C6.**  For every sequence of `addSystem` calls in which each added
system has `order.auto` set, the runner's list (after every addition — the
statement quantifies over all such sequences, hence over every prefix) is
sorted ascending by `order.number` (a system without an explicit order
counting as 0), and systems with equal order keys keep their relative
insertion order: every equal-key fiber of the final list equals the same
fiber of the insertion sequence. -/
theorem addSystem_sorted_stable (ss : List RSystem)
    (hauto : ∀ s ∈ ss, autoOn s) :
    (ss.foldl addSystem []).Pairwise sysLe ∧
    ∀ v : Int, (ss.foldl addSystem []).filter (fun s => orderNumber s == v) =
      ss.filter (fun s => orderNumber s == v) := by
  refine ⟨foldl_addSystem_sorted ss [] (by simp) hauto, fun v => ?_⟩
  rw [foldl_addSystem_fiber ss [] hauto v]
  simp

/-- Witness for C6: three auto-ordered systems with keys 5, 1, 5. -/
theorem addSystem_sorted_stable_witness :
    (∀ s ∈ ([{ name := "a", order := some { auto := true, number := 5 } },
             { name := "b", order := some { auto := true, number := 1 } },
             { name := "c", order := some { auto := true, number := 5 } }] :
        List RSystem), autoOn s) ∧
    ((([{ name := "a", order := some { auto := true, number := 5 } },
        { name := "b", order := some { auto := true, number := 1 } },
        { name := "c", order := some { auto := true, number := 5 } }] :
          List RSystem).foldl addSystem []).Pairwise sysLe ∧
     ∀ v : Int, (([{ name := "a", order := some { auto := true, number := 5 } },
        { name := "b", order := some { auto := true, number := 1 } },
        { name := "c", order := some { auto := true, number := 5 } }] :
          List RSystem).foldl addSystem []).filter (fun s => orderNumber s == v) =
       ([{ name := "a", order := some { auto := true, number := 5 } },
         { name := "b", order := some { auto := true, number := 1 } },
         { name := "c", order := some { auto := true, number := 5 } }] :
           List RSystem).filter (fun s => orderNumber s == v)) :=
  ⟨by decide, addSystem_sorted_stable _ (by decide)⟩

end Runner

namespace Sword

theorem mapGet_mapSet_self {κ β : Type} [BEq κ] [LawfulBEq κ]
    (m : List (κ × β)) (k : κ) (v : β) : mapGet (mapSet m k v) k = some v := by
  induction m with
  | nil => simp [mapSet, mapGet]
  | cons kv rest ih =>
    by_cases h : kv.1 == k
    · simp [mapSet, h, mapGet]
    · rw [show mapSet (kv :: rest) k v = kv :: mapSet rest k v by simp [mapSet, h]]
      rw [mapGet, List.find?_cons_of_neg _ (by simp_all), ← mapGet, ih]

end Sword

namespace Midware

/-- Spec-side: a middleware that passes every event straight through,
calling its continuation exactly once and doing nothing else. -/
def Transparent (m : Middleware) : Prop := ∀ event s k, m event s k = k s

/-- Spec-side: a middleware that never invokes its continuation (the
short-circuit of the claim) and has no effects of its own. -/
def Blocking (m : Middleware) : Prop := ∀ event s k, m event s k = s

/-- The invocation records one dispatch appends: each listener in the
channel list's order, each entity in store order, that listener's actions
in order, every record carrying the shared payload. -/
def dispatchOne (evt : MIEvent) (payload : Sword.Value)
    (entity : Sword.Entity) : List (Nat × Sword.Entity × Sword.Value) :=
  if evt.conditions.all (fun cond => cond entity payload) then
    evt.actions.map (fun a => (a, entity, payload))
  else []

def dispatchList (listeners : List MIEvent) (ents : List Sword.Entity)
    (payload : Sword.Value) : List (Nat × Sword.Entity × Sword.Value) :=
  listeners.flatMap (fun evt => ents.flatMap (dispatchOne evt payload))

theorem entityFold_spec (evt : MIEvent) (payload : Sword.Value)
    (l : List Sword.Entity) (s : MState) :
    (l.foldl (fun s entity =>
        if evt.conditions.all (fun cond => cond entity payload) then
          runActions s entity payload evt.actions
        else s) s) =
      { s with invocations := s.invocations ++ l.flatMap (dispatchOne evt payload) } := by
  induction l generalizing s with
  | nil => simp
  | cons e rest ih =>
    rw [List.foldl_cons]
    by_cases h : (evt.conditions.all fun cond => cond e payload) = true
    · rw [if_pos h, ih, List.flatMap_cons, dispatchOne, if_pos h]
      simp [runActions]
    · rw [if_neg h, ih, List.flatMap_cons, dispatchOne, if_neg h]
      simp

theorem processEvent_spec (s : MState) (event : GameEvent) :
    processEvent s event =
      { s with
        invocations := s.invocations ++ dispatchList
          ((Sword.mapGet s.eventListeners event.name).getD []) s.entities event.payload } := by
  rw [processEvent]
  have key : ∀ (listeners : List MIEvent) (t : MState), t.entities = s.entities →
      listeners.foldl (fun u evt =>
        u.entities.foldl (fun u entity =>
          if evt.conditions.all (fun cond => cond entity event.payload) then
            runActions u entity event.payload evt.actions
          else u) u) t =
      { t with
        invocations := t.invocations ++ dispatchList listeners s.entities event.payload } := by
    intro listeners
    induction listeners with
    | nil => intro t _; simp [dispatchList]
    | cons evt rest ih =>
      intro t ht
      rw [List.foldl_cons, entityFold_spec]
      rw [ih { entities := t.entities, eventListeners := t.eventListeners,
               invocations := t.invocations ++ t.entities.flatMap (dispatchOne evt event.payload) } ht]
      simp [dispatchList, List.flatMap_cons, ht, List.append_assoc]
  exact key _ s rfl

theorem processMiddlewares_blocked (blocker : Middleware) (post : List Middleware)
    (event : GameEvent) (hblock : Blocking blocker) :
    ∀ (pre : List Middleware), (∀ m ∈ pre, Transparent m) →
      ∀ s, processMiddlewares (pre ++ blocker :: post) event s = s
  | [], _, s => by
    show blocker event s _ = s
    rw [hblock]
  | m :: rest, hpre, s => by
    show m event s (fun t => processMiddlewares (rest ++ blocker :: post) event t) = s
    rw [hpre m (List.mem_cons_self m rest)]
    exact processMiddlewares_blocked blocker post event hblock rest
      (fun m' h' => hpre m' (List.mem_cons_of_mem m h')) s

theorem processMiddlewares_transparent (event : GameEvent) :
    ∀ (mws : List Middleware), (∀ m ∈ mws, Transparent m) →
      ∀ s, processMiddlewares mws event s = processEvent s event
  | [], _, _ => rfl
  | m :: rest, hmws, s => by
    show m event s (fun t => processMiddlewares rest event t) = processEvent s event
    rw [hmws m (List.mem_cons_self m rest)]
    exact processMiddlewares_transparent event rest
      (fun m' h' => hmws m' (List.mem_cons_of_mem m h')) s

theorem dispatchList_payload (listeners : List MIEvent) (ents : List Sword.Entity)
    (payload : Sword.Value) :
    ∀ x ∈ dispatchList listeners ents payload, x.2.2 = payload := by
  intro x hx
  simp only [dispatchList, List.mem_flatMap] at hx
  obtain ⟨evt, _, entity, _, hx⟩ := hx
  rw [dispatchOne] at hx
  by_cases h : (evt.conditions.all fun cond => cond entity payload) = true
  · rw [if_pos h] at hx
    obtain ⟨a, _, rfl⟩ := List.mem_map.mp hx
    rfl
  · rw [if_neg h] at hx
    cases hx

theorem onListener_channel_sorted (s : MState) (eventName : String) (event : MIEvent) :
    ((Sword.mapGet (onListener s eventName event).eventListeners eventName).getD
      []).Pairwise prioGe := by
  have h1 : (onListener s eventName event).eventListeners =
      Sword.mapSet s.eventListeners eventName
        (List.insertionSort prioGe
          (((Sword.mapGet s.eventListeners eventName).getD []) ++ [event])) := rfl
  rw [h1, Sword.mapGet_mapSet_self, Option.getD_some]
  exact List.sorted_insertionSort prioGe _

theorem onListener_channel_fiber (s : MState) (eventName : String) (event : MIEvent)
    (v : Int) :
    ((Sword.mapGet (onListener s eventName event).eventListeners eventName).getD
        []).filter (fun e => prio e == v) =
      (((Sword.mapGet s.eventListeners eventName).getD []) ++ [event]).filter
        (fun e => prio e == v) := by
  have h1 : (onListener s eventName event).eventListeners =
      Sword.mapSet s.eventListeners eventName
        (List.insertionSort prioGe
          (((Sword.mapGet s.eventListeners eventName).getD []) ++ [event])) := rfl
  rw [h1, Sword.mapGet_mapSet_self, Option.getD_some]
  refine Sword.insertionSort_filter_fiber prioGe _ _ (fun a b ha hb => ?_)
  have ha' : prio a = v := by simpa using ha
  have hb' : prio b = v := by simpa using hb
  rw [prioGe, ha', hb']

/-- One empty-bag entity and no listeners yet. -/
def c4s0 : MState := { entities := [[]] }

/-- A listener with no priority whose single action is token 1. -/
def c4low : MIEvent := { actions := [1] }

/-- A listener registered *after* `c4low` but with priority 5; action token 2. -/
def c4high : MIEvent := { priority := some 5, actions := [2] }

/-- Channel `e` after registering `c4low` then `c4high`, in that order. -/
def c4s1 : MState := onListener c4s0 "e" c4low

def c4s2 : MState := onListener c4s1 "e" c4high

def c4event : GameEvent := { name := "e", payload := Sword.Value.null }

/-- **C4 (counterexample).**  The claim says listeners are invoked in
registration order.  Register the priority-0 listener (action 1) first and
the priority-5 listener (action 2) second; emitting on the channel (with an
empty middleware chain) invokes action 2 *before* action 1, because `on`
keeps the listener list sorted by descending priority — so the
registration-order conjunct of the claim is false. -/
theorem listener_priority_beats_registration :
    (emitEvent [] c4s2 c4event).invocations =
      [(2, [], Sword.Value.null), (1, [], Sword.Value.null)] ∧
    (emitEvent [] c4s2 c4event).invocations ≠
      [(1, [], Sword.Value.null), (2, [], Sword.Value.null)] := by
  refine ⟨rfl, fun h => ?_⟩
  rw [show (emitEvent [] c4s2 c4event).invocations =
    [(2, [], Sword.Value.null), (1, [], Sword.Value.null)] from rfl] at h
  simp at h

/-- **C4 (amended).**  With middlewares modelled as continuation
transformers: (1) if the chain contains a middleware that never invokes its
continuation (`Blocking`, preceded by pass-through middlewares), an emission
changes nothing — in particular no listener action of that channel runs for
that emission; (2) a subsequent independent emission through an all-passing
chain is unaffected by the blocked one; (3) an event reaches `processEvent`
(the listeners) when every middleware in chain order calls `next`; (4) the
listeners then run synchronously in the order of the channel's stored
listener list, appending one invocation record per action with (5) every
record carrying the shared payload; and (6) `on` maintains that stored list
sorted by *descending* priority (default 0) — not raw registration order —
with listeners of equal priority kept in registration order (every
equal-priority fiber of the list is preserved). -/
theorem emitEvent_middleware_spec (pre post mws2 : List Middleware)
    (blocker : Middleware) (s : MState) (event event2 : GameEvent)
    (hpre : ∀ m ∈ pre, Transparent m) (hblock : Blocking blocker)
    (hmws2 : ∀ m ∈ mws2, Transparent m) :
    emitEvent (pre ++ blocker :: post) s event = s ∧
    emitEvent mws2 (emitEvent (pre ++ blocker :: post) s event) event2 =
      emitEvent mws2 s event2 ∧
    emitEvent mws2 s event = processEvent s event ∧
    processEvent s event = { s with
      invocations := s.invocations ++ dispatchList
        ((Sword.mapGet s.eventListeners event.name).getD []) s.entities event.payload } ∧
    (∀ x ∈ dispatchList ((Sword.mapGet s.eventListeners event.name).getD [])
        s.entities event.payload, x.2.2 = event.payload) ∧
    (∀ eventName evt,
      ((Sword.mapGet (onListener s eventName evt).eventListeners eventName).getD
          []).Pairwise prioGe ∧
      ∀ v : Int, ((Sword.mapGet (onListener s eventName evt).eventListeners
          eventName).getD []).filter (fun e => prio e == v) =
        (((Sword.mapGet s.eventListeners eventName).getD []) ++ [evt]).filter
          (fun e => prio e == v)) := by
  have h1 := processMiddlewares_blocked blocker post event hblock pre hpre
  refine ⟨h1 s, ?_, processMiddlewares_transparent event mws2 hmws2 s,
    processEvent_spec s event, dispatchList_payload _ _ _,
    fun eventName evt => ⟨onListener_channel_sorted s eventName evt,
      fun v => onListener_channel_fiber s eventName evt v⟩⟩
  have h2 : emitEvent (pre ++ blocker :: post) s event = s := h1 s
  rw [h2]

/-- A pass-through middleware: calls `next` once and nothing else. -/
def passMw : Middleware := fun _ s k => k s

/-- A swallowing middleware: never calls `next`. -/
def blockMw : Middleware := fun _ s _ => s

/-- Witness for the amended C4 at concrete inputs: chain `[passMw, blockMw]`
for the blocked emission, chain `[passMw]` for the passing one, state
`c4s1`, channel `e`. -/
theorem emitEvent_middleware_spec_witness :
    (∀ m ∈ [passMw], Transparent m) ∧ Blocking blockMw ∧
    (emitEvent ([passMw] ++ blockMw :: []) c4s1 c4event = c4s1 ∧
     emitEvent [passMw] (emitEvent ([passMw] ++ blockMw :: []) c4s1 c4event) c4event =
       emitEvent [passMw] c4s1 c4event ∧
     emitEvent [passMw] c4s1 c4event = processEvent c4s1 c4event ∧
     processEvent c4s1 c4event = { c4s1 with
       invocations := c4s1.invocations ++ dispatchList
         ((Sword.mapGet c4s1.eventListeners c4event.name).getD []) c4s1.entities
         c4event.payload } ∧
     (∀ x ∈ dispatchList ((Sword.mapGet c4s1.eventListeners c4event.name).getD [])
         c4s1.entities c4event.payload, x.2.2 = c4event.payload) ∧
     (∀ eventName evt,
       ((Sword.mapGet (onListener c4s1 eventName evt).eventListeners eventName).getD
           []).Pairwise prioGe ∧
       ∀ v : Int, ((Sword.mapGet (onListener c4s1 eventName evt).eventListeners
           eventName).getD []).filter (fun e => prio e == v) =
         (((Sword.mapGet c4s1.eventListeners eventName).getD []) ++ [evt]).filter
           (fun e => prio e == v))) := by
  have hp : ∀ m ∈ [passMw], Transparent m := by
    intro m hm
    rw [List.mem_singleton] at hm
    subst hm
    intro e s k
    rfl
  have hb : Blocking blockMw := fun e s k => rfl
  exact ⟨hp, hb,
    emitEvent_middleware_spec [passMw] [] [passMw] blockMw c4s1 c4event c4event hp hb hp⟩

end Midware

namespace Sword

/-- A codec state holding one entity `{hp: 1}` and one archetype `basic`. -/
def c8prior : CodecState :=
  { entities := some (encodeEntities [[("hp", Value.num 1)]]),
    archetypes := [("basic", Value.obj [("hp", Value.num 5)])] }

/-- A syntactically valid snapshot that lacks the `archetypes` field. -/
def c8payload : Value :=
  Value.obj [("entities", Value.arr []), ("systems", Value.arr [])]

/-- The store at the moment `fromJSON` throws at
`for (const [name, archetype] of Njson.archetypes)`: entity list and
systems already overwritten, archetype map already cleared. -/
def c8after : CodecState :=
  { entities := some (Value.arr []), systems := some (Value.arr []) }

/-- **C8 (evaluation at the failing input).**  Restoring the valid-JSON but
wrong-shape payload `{"entities":[],"systems":[]}` fails (the `for..of`
over the missing `archetypes` throws) — but only *after* the entity list
has been replaced and the archetype table cleared, so the store is not left
unchanged, contradicting the claim's atomicity.  (Only a payload that
`JSON.parse` itself rejects — the `none` input — leaves the store
untouched, last conjunct.) -/
theorem fromJSON_clobbers_on_partial_failure :
    fromJSON c8prior (some c8payload) = .error c8after ∧
    c8after.entities ≠ c8prior.entities ∧
    c8after.archetypes ≠ c8prior.archetypes ∧
    fromJSON c8prior none = .error c8prior := by
  refine ⟨rfl, ?_, ?_, rfl⟩
  · intro h
    simp [c8after, c8prior, encodeEntities, encodeEntity] at h
  · intro h
    simp [c8after, c8prior] at h

theorem decodeEntities_encodeEntities (es : List Entity) :
    decodeEntities (encodeEntities es) = some es := by
  show (es.map encodeEntity).mapM decodeEntity = some es
  induction es with
  | nil => rfl
  | cons e rest ih =>
    rw [List.map_cons, List.mapM_cons, ih]
    rfl

theorem asEntryList_encoded {β : Type} (g : β → Value) (l : List (String × β)) :
    asEntryList (Value.arr (l.map (fun p => Value.arr [Value.str p.1, g p.2]))) =
      some (l.map (fun p => (p.1, g p.2))) := by
  show (l.map (fun p => Value.arr [Value.str p.1, g p.2])).mapM asEntry =
    some (l.map (fun p => (p.1, g p.2)))
  induction l with
  | nil => rfl
  | cons p rest ih =>
    rw [List.map_cons, List.mapM_cons, ih]
    rfl

theorem fromJSON_ok (s : CodecState) (j : Value) (aV lV : Value)
    (apairs lpairs : List (String × Value))
    (hA : jGet j "archetypes" = some aV) (hA2 : asEntryList aV = some apairs)
    (hL : jGet j "eventListeners" = some lV) (hL2 : asEntryList lV = some lpairs) :
    fromJSON s (some j) = .ok
      { entities := jGet j "entities"
        systems := jGet j "systems"
        archetypes := apairs.foldl (fun m p => mapSet m p.1 p.2) []
        eventListeners := lpairs.foldl (fun m p => mapSet m p.1 p.2) s.eventListeners
        onUpdateHooks := jGet j "onUpdateHooks"
        onEntityAddedHooks := jGet j "onEntityAddedHooks"
        onEntityRemovedHooks := jGet j "onEntityRemovedHooks" } := by
  simp only [fromJSON, hA, hA2, hL, hL2]

/-- **C9.**  For every store whose component values live in the JSON-shaped
`Value` type (numbers, booleans, strings, nested objects/arrays — the
claim's hypothesis, since function values are not in `Value`), restoring
the serialized snapshot succeeds and reproduces the entity list exactly:
the restored `entities` slot is precisely the encoding of the original
component bags, and decoding it yields those bags unchanged, every key and
value included.  (`JSON.stringify`/`parse` are the host's exact tree codec;
the embedding works on the parsed trees.) -/
theorem fromJSON_toJSON_roundtrip (w : World) (s : CodecState) :
    ∃ s', fromJSON s (some (toJSON w)) = .ok s' ∧
      s'.entities = some (encodeEntities (w.entities.map (fun p => p.2))) ∧
      decodeEntities (encodeEntities (w.entities.map (fun p => p.2))) =
        some (w.entities.map (fun p => p.2)) := by
  have hA : jGet (toJSON w) "archetypes" =
      some (Value.arr (w.archetypes.map
        (fun p => Value.arr [Value.str p.1, Value.obj p.2]))) := rfl
  have hL : jGet (toJSON w) "eventListeners" =
      some (Value.arr (w.eventListeners.map
        (fun p => Value.arr [Value.str p.1,
          Value.arr (p.2.map (fun _ => Value.null))]))) := rfl
  have hrun := fromJSON_ok s (toJSON w) _ _ _ _ hA
    (asEntryList_encoded Value.obj w.archetypes) hL
    (asEntryList_encoded (fun tokens : List Nat =>
      Value.arr (tokens.map (fun _ => Value.null))) w.eventListeners)
  exact ⟨_, hrun, rfl, decodeEntities_encodeEntities _⟩

end Sword
